import Mathlib

/-!
# Verification of the Matcha-TTS NSF post-processing pipeline

Shallow embedding of the audio post-processing / feature-alignment code of
`matcha/cli.py` (`to_waveform`, `NSFHead.forward`, `NSFHead.inference`) and
`matcha/data/text_mel_datamodule.py` (`RMVPEOnnxPitchExtractor.extract`),
together with theorems settling the specification claims about them.

Modelling conventions:
* numpy floating arrays are modelled with exact arithmetic — polymorphically
  over a `LinearOrderedField` where the code is dtype-generic (so theorems can
  be evaluated at `ℚ`), and over `ℝ` where the code calls `np.log` / `pow`;
* a 3-D numpy array is a shape triple plus a total index function
  (`Tensor3`); 1-D arrays are lists; an array whose dimensionality is checked
  at run time carries an explicit `ndim` field (`NpArray`);
* the external ONNX inference sessions are parameters (opaque functions);
* `np.random.randn` is a parameter (a noise source indexed by shape);
* dtype casts (`astype(np.float32)`, `astype(np.int64)`) are identities of the
  idealized values; `astype(np.int16)` on floats is truncation toward zero
  followed by wrapping into the 16-bit two's-complement range.
-/

/-- A 3-D array: shape `(n0, n1, n2)` plus a total index function. Entries
outside the shape are irrelevant junk, as in a shallow view of numpy data. -/
structure Tensor3 (α : Type) where
  n0 : Nat
  n1 : Nat
  n2 : Nat
  data : Nat → Nat → Nat → α

/-- `np.repeat(x, k, axis=2)`: each index along axis 2 is duplicated `k`
times consecutively, so output entry `t` comes from input entry `t / k`. -/
def npRepeatAxis2 {α : Type} (k : Nat) (x : Tensor3 α) : Tensor3 α :=
  ⟨x.n0, x.n1, x.n2 * k, fun b d t => x.data b d (t / k)⟩

/-- `x.transpose(0, 2, 1)`: swap axes 1 and 2. -/
def transpose021 {α : Type} (x : Tensor3 α) : Tensor3 α :=
  ⟨x.n0, x.n2, x.n1, fun b t d => x.data b d t⟩

/-- The frame-alignment step of `to_waveform`
(`np.repeat(hubert, 2, axis=2).transpose(0, 2, 1).astype(np.float32)`);
the dtype cast is the identity on the idealized values. -/
def alignStep {α : Type} (mel : Tensor3 α) : Tensor3 α :=
  transpose021 (npRepeatAxis2 2 mel)

/-- C1. Frame alignment: on a `[1, D, T]` mel with `D > 0` and `T > 0`, the
alignment step of `to_waveform` yields a `[1, 2T, D]` tensor, and every even
output frame `2i` (for `i < T`) equals input frame `i` entrywise. -/
theorem alignStep_shape_even_frames {α : Type} (mel : Tensor3 α)
    (h0 : mel.n0 = 1) (_hD : 0 < mel.n1) (_hT : 0 < mel.n2) :
    (alignStep mel).n0 = 1 ∧
    (alignStep mel).n1 = 2 * mel.n2 ∧
    (alignStep mel).n2 = mel.n1 ∧
    ∀ i < mel.n2, ∀ d < mel.n1,
      (alignStep mel).data 0 (2 * i) d = mel.data 0 d i := by
  refine ⟨h0, Nat.mul_comm mel.n2 2, rfl, ?_⟩
  intro i _ d _
  show mel.data 0 d (2 * i / 2) = mel.data 0 d i
  rw [Nat.mul_div_cancel_left i (by norm_num)]

/-- Witness for C1 at the concrete mel `⟨1, 1, 1, 0⟩`. -/
theorem alignStep_shape_even_frames_witness :
    (alignStep ⟨1, 1, 1, fun _ _ _ => (0 : ℚ)⟩).n0 = 1 ∧
    (alignStep ⟨1, 1, 1, fun _ _ _ => (0 : ℚ)⟩).n1 = 2 * 1 ∧
    (alignStep ⟨1, 1, 1, fun _ _ _ => (0 : ℚ)⟩).n2 = 1 ∧
    ∀ i < 1, ∀ d < 1,
      (alignStep ⟨1, 1, 1, fun _ _ _ => (0 : ℚ)⟩).data 0 (2 * i) d
        = (0 : ℚ) :=
  alignStep_shape_even_frames ⟨1, 1, 1, fun _ _ _ => (0 : ℚ)⟩
    rfl (by decide) (by decide)

/-! ## Errors

The specification's error taxonomy, as far as the source realises it.  In the
source every raise is a `RuntimeError`; the constructors keep the distinct
situations apart: the `ndim` precondition checks of
`RMVPEOnnxPitchExtractor.extract`, the numpy broadcast failure of the
tail-slice assignment, a failure of the external engine call, the wrapper
re-raise of `extract`, and the spec-named errors claimed for the vocoder
path. -/

inductive PipeError where
  | shapeError (arg : String)
  | emptyInput
  | broadcastError
  | engineError
  | wrapped (cls : String) (cause : PipeError)
deriving DecidableEq, Repr

/-- Truncation toward zero: the value conversion of numpy `astype` from a
floating dtype to an integer dtype. -/
def truncToZero {α : Type} [LinearOrderedField α] [FloorRing α] (x : α) : ℤ :=
  if 0 ≤ x then ⌊x⌋ else ⌈x⌉

/-- Wrap an integer into the 16-bit two's-complement range, the effect of
`astype(np.int16)` on an in-or-out-of-range integral value. -/
def wrapInt16 (n : ℤ) : ℤ :=
  (n + 32768) % 65536 - 32768

/-- One sample of `(w * 32767).astype(np.int16)` from `NSFHead.forward`. -/
def pcm16 {α : Type} [LinearOrderedField α] [FloorRing α] (w : α) : ℤ :=
  wrapInt16 (truncToZero (w * 32767))

/-- The six named inputs `NSFHead.forward` hands to the ONNX session, in the
declared order. -/
structure NSFInputs (α : Type) where
  hubert : Tensor3 α
  hubertLength : Nat
  pitch : List ℤ
  pitchf : List α
  ds : List ℤ
  rnd : Tensor3 α

/-- `NSFHead.forward`: invoke the external engine (a parameter) on the six
inputs and convert its floating waveform to 16-bit PCM by
`(out * 32767).astype(np.int16)`. -/
def NSFHead.forward {α : Type} [LinearOrderedField α] [FloorRing α]
    (engine : NSFInputs α → List α) (ins : NSFInputs α) : List ℤ :=
  (engine ins).map pcm16

/-- `NSFHead.inference`: build the remaining inputs (`pitch` as int64,
`pitchf` as float32 — identities on the idealized values; `ds = [0]`;
`rnd` a fresh noise tensor of shape `[1, 192, hubert_length]` drawn from the
noise source parameter) and call `forward`.  The `squeeze()` and `[0:]` on
the result are identities on the 1-D model.  The `Except` return type makes
the claimed-but-absent error channel expressible: the source contains no
raise on this path, so the definition only ever returns `.ok`. -/
def NSFHead.inference {α : Type} [LinearOrderedField α] [FloorRing α]
    (engine : NSFInputs α → List α) (noise : Nat → Nat → Nat → α)
    (hubertIn : Tensor3 α) (pitchfIn : List α) (pitchIIn : List ℤ) :
    Except PipeError (List ℤ) :=
  let hubertLength := hubertIn.n1
  let pitch := pitchIIn
  let pitchf := pitchfIn
  let ds : List ℤ := [0]
  let rnd : Tensor3 α := ⟨1, 192, hubertLength, noise⟩
  .ok (NSFHead.forward engine ⟨hubertIn, hubertLength, pitch, pitchf, ds, rnd⟩)

/-- A fixed concrete `NSFInputs ℚ` used to evaluate theorems with a
hypothesis at one input. -/
def probeIns : NSFInputs ℚ :=
  ⟨⟨1, 1, 1, fun _ _ _ => 0⟩, 1, [5], [220], [0], ⟨1, 192, 1, fun _ _ _ => 0⟩⟩

/-- C3 counterexample: `NSFHead.inference` called with a `pitch_coarse` of 1
frame against `hidden_features` with 2 frames does NOT fail with a
`ShapeError`: it invokes the engine and returns its converted output.  The
source performs no frame-count validation at all. -/
theorem nsfInference_no_shape_check_cex :
    NSFHead.inference (fun _ => [(1 : ℚ)]) (fun _ _ _ => (0 : ℚ))
        ⟨1, 2, 80, fun _ _ _ => (0 : ℚ)⟩ [(220 : ℚ)] [5]
      = .ok [32767] ∧
    (⟨1, 2, 80, fun _ _ _ => (0 : ℚ)⟩ : Tensor3 ℚ).n1 = 2 ∧
    ([(5 : ℤ)]).length = 1 := by
  refine ⟨?_, rfl, rfl⟩
  show Except.ok ([(1 : ℚ)].map pcm16) = .ok [32767]
  norm_num [pcm16, truncToZero, wrapInt16]

/-- C3 amended: `NSFHead.inference` performs no frame-count validation; even
when the `pitch_coarse` frame count differs from the `hidden_features` frame
count it invokes the external engine on the assembled inputs and returns the
converted output, and it never fails with any error. -/
theorem nsfInference_no_shape_check {α : Type} [LinearOrderedField α]
    [FloorRing α] (engine : NSFInputs α → List α)
    (noise : Nat → Nat → Nat → α) (hubertIn : Tensor3 α)
    (pitchfIn : List α) (pitchIIn : List ℤ)
    (_hmismatch : pitchIIn.length ≠ hubertIn.n1) :
    NSFHead.inference engine noise hubertIn pitchfIn pitchIIn
      = .ok (NSFHead.forward engine
          ⟨hubertIn, hubertIn.n1, pitchIIn, pitchfIn, [0],
            ⟨1, 192, hubertIn.n1, noise⟩⟩) ∧
    ∀ e, NSFHead.inference engine noise hubertIn pitchfIn pitchIIn
      ≠ .error e :=
  ⟨rfl, fun _ h => Except.noConfusion h⟩

/-- Witness for the amended C3 at a concrete mismatched input. -/
theorem nsfInference_no_shape_check_witness :
    NSFHead.inference (fun _ => ([] : List ℚ)) (fun _ _ _ => (0 : ℚ))
        ⟨1, 3, 80, fun _ _ _ => (0 : ℚ)⟩ [(220 : ℚ), 220] [7, 7]
      = .ok (NSFHead.forward (fun _ => ([] : List ℚ))
          ⟨⟨1, 3, 80, fun _ _ _ => (0 : ℚ)⟩, 3, [7, 7], [(220 : ℚ), 220],
            [0], ⟨1, 192, 3, fun _ _ _ => (0 : ℚ)⟩⟩) ∧
    ∀ e, NSFHead.inference (fun _ => ([] : List ℚ)) (fun _ _ _ => (0 : ℚ))
        ⟨1, 3, 80, fun _ _ _ => (0 : ℚ)⟩ [(220 : ℚ), 220] [7, 7]
      ≠ .error e :=
  nsfInference_no_shape_check _ _ _ _ _ (by decide)

/-- Truncation toward zero is the identity on integer values. -/
theorem truncToZero_intCast {α : Type} [LinearOrderedField α] [FloorRing α]
    (n : ℤ) : truncToZero ((n : α)) = n := by
  rcases le_or_lt 0 ((n : α)) with h | h
  · rw [truncToZero, if_pos h, Int.floor_intCast]
  · rw [truncToZero, if_neg (not_le.mpr h), Int.ceil_intCast]

/-- A full-scale sample of exactly `1.0` converts to `32767`. -/
theorem pcm16_one {α : Type} [LinearOrderedField α] [FloorRing α] :
    pcm16 (1 : α) = 32767 := by
  have h : ((1 : α) * 32767) = ((32767 : ℤ) : α) := by norm_num
  rw [pcm16, h, truncToZero_intCast]
  decide

/-- A full-scale sample of exactly `-1.0` converts to `-32767`. -/
theorem pcm16_neg_one {α : Type} [LinearOrderedField α] [FloorRing α] :
    pcm16 (-1 : α) = -32767 := by
  have h : ((-1 : α) * 32767) = ((-32767 : ℤ) : α) := by norm_num
  rw [pcm16, h, truncToZero_intCast]
  decide

/-- C4 counterexample: the claim says `NSFHead.forward` returns
`round(w * 32767)`.  At the engine output `w = 8/163835` (so
`w * 32767 = 8/5`) the code yields `1` (truncation toward zero) while
rounding yields `2`. -/
theorem nsfForward_not_round_cex :
    (NSFHead.forward (fun _ => [(8 / 163835 : ℚ)]) probeIns)[0]?
      = some 1 ∧
    round ((8 / 163835 : ℚ) * 32767) = 2 ∧ (1 : ℤ) ≠ 2 := by
  refine ⟨?_, by norm_num [round_eq], by decide⟩
  show ([(8 / 163835 : ℚ)].map pcm16)[0]? = some 1
  norm_num [pcm16, truncToZero, wrapInt16]

/-- C4 amended: for every engine output sample `w`, `NSFHead.forward`
returns `w * 32767` truncated toward zero and cast to 16-bit signed integer
(no dithering, no rounding, no clipping guard beyond the wrap of the cast).
-/
theorem nsfForward_trunc {α : Type} [LinearOrderedField α] [FloorRing α]
    (engine : NSFInputs α → List α) (ins : NSFInputs α) (k : Nat) (w : α)
    (h : (engine ins)[k]? = some w) :
    (NSFHead.forward engine ins)[k]?
      = some (wrapInt16 (truncToZero (w * 32767))) := by
  simp [NSFHead.forward, pcm16, h]

/-- Witness for the amended C4 at the engine output `[1/2]`. -/
theorem nsfForward_trunc_witness :
    (NSFHead.forward (fun _ => [(1 / 2 : ℚ)]) probeIns)[0]?
      = some (wrapInt16 (truncToZero ((1 / 2 : ℚ) * 32767))) :=
  nsfForward_trunc _ probeIns 0 (1 / 2 : ℚ) rfl

/-- C5. PCM endpoints: under the conversion performed by `NSFHead.forward`,
an engine output sample of exactly `1.0` becomes `32767` and a sample of
exactly `-1.0` becomes `-32767` (not `-32768`). -/
theorem nsfForward_pcm_endpoints {α : Type} [LinearOrderedField α]
    [FloorRing α] (engine : NSFInputs α → List α) (ins : NSFInputs α)
    (k : Nat) :
    ((engine ins)[k]? = some 1 →
      (NSFHead.forward engine ins)[k]? = some 32767) ∧
    ((engine ins)[k]? = some (-1) →
      (NSFHead.forward engine ins)[k]? = some (-32767)) := by
  constructor <;> intro h <;>
    simp [NSFHead.forward, h, pcm16_one, pcm16_neg_one]

/-- Witness for C5 at the engine output `[1, -1]`. -/
theorem nsfForward_pcm_endpoints_witness :
    (NSFHead.forward (fun _ => [(1 : ℚ), -1]) probeIns)[0]?
      = some 32767 ∧
    (NSFHead.forward (fun _ => [(1 : ℚ), -1]) probeIns)[1]?
      = some (-32767) :=
  ⟨(nsfForward_pcm_endpoints _ probeIns 0).1 rfl,
   (nsfForward_pcm_endpoints _ probeIns 1).2 rfl⟩

/-! ## Log-mel pitch quantization

Shared between `RMVPEOnnxPitchExtractor.extract` (datamodule) and
`to_waveform` (cli), which contain the identical statement sequence with the
same fixed F0 bounds 50–1100 Hz.  numpy's masked assignments
(`f0_mel[f0_mel > 0] = ...` etc.) act elementwise and independently, so the
array pipeline is the elementwise map of the three clip steps.  `np.log` is
modelled by `Real.log`, `np.rint` by round-half-to-even. -/

noncomputable def f0MelMin : ℝ := 1127 * Real.log (1 + 50 / 700)

noncomputable def f0MelMax : ℝ := 1127 * Real.log (1 + 1100 / 700)

/-- `1127 * np.log(1 + p / 700)`, the mel warp applied elementwise. -/
noncomputable def melWarp (p : ℝ) : ℝ := 1127 * Real.log (1 + p / 700)

/-- `f0_mel[f0_mel > 0] = (f0_mel[f0_mel > 0] - f0_mel_min) * 254 /
(f0_mel_max - f0_mel_min) + 1`, elementwise. -/
noncomputable def clipStep1 (m : ℝ) : ℝ :=
  if 0 < m then (m - f0MelMin) * 254 / (f0MelMax - f0MelMin) + 1 else m

/-- `f0_mel[f0_mel <= 1] = 1`, elementwise. -/
noncomputable def clipStep2 (m : ℝ) : ℝ := if m ≤ 1 then 1 else m

/-- `f0_mel[f0_mel > 255] = 255`, elementwise. -/
noncomputable def clipStep3 (m : ℝ) : ℝ := if 255 < m then 255 else m

noncomputable def clipMel (m : ℝ) : ℝ := clipStep3 (clipStep2 (clipStep1 m))

/-- `np.rint`: round to nearest, ties to even. -/
noncomputable def rint (x : ℝ) : ℤ :=
  if x - ⌊x⌋ < 1 / 2 then ⌊x⌋
  else if 1 / 2 < x - ⌊x⌋ then ⌊x⌋ + 1
  else if 2 ∣ ⌊x⌋ then ⌊x⌋ else ⌊x⌋ + 1

/-- One element of `np.rint(f0_mel).astype(int)` (datamodule) /
`np.rint(f0_mel).astype(np.int64)` (cli). -/
noncomputable def quantizeCoarse (p : ℝ) : ℤ := rint (clipMel (melWarp p))

/-- The whole-array quantization `pitch values → coarse codes`. -/
noncomputable def f0ToCoarse (pf : List ℝ) : List ℤ := pf.map quantizeCoarse

theorem rint_one : rint (1 : ℝ) = 1 := by
  rw [rint, Int.floor_one]
  norm_num

theorem rint_mem (x : ℝ) (h1 : 1 ≤ x) (h2 : x ≤ 255) :
    1 ≤ rint x ∧ rint x ≤ 255 := by
  have hfl : (⌊x⌋ : ℝ) ≤ x := Int.floor_le x
  have hf1 : (1 : ℤ) ≤ ⌊x⌋ := by
    rw [Int.le_floor]
    exact_mod_cast h1
  have hf2 : ⌊x⌋ ≤ 255 := by exact_mod_cast hfl.trans h2
  have hkey : ¬(x - ⌊x⌋ < 1 / 2) → ⌊x⌋ + 1 ≤ 255 := by
    intro ha
    push_neg at ha
    have hlt : (⌊x⌋ : ℝ) < 255 := by linarith
    have : ⌊x⌋ < 255 := by exact_mod_cast hlt
    omega
  rw [rint]
  split_ifs with ha hb hc
  · exact ⟨hf1, hf2⟩
  · exact ⟨by omega, hkey ha⟩
  · exact ⟨hf1, hf2⟩
  · exact ⟨by omega, hkey ha⟩

theorem clipMel_mem (m : ℝ) : 1 ≤ clipMel m ∧ clipMel m ≤ 255 := by
  have h2 : 1 ≤ clipStep2 (clipStep1 m) := by
    rw [clipStep2]
    split_ifs with h
    · norm_num
    · linarith [not_le.mp h]
  rw [clipMel, clipStep3]
  split_ifs with h
  · norm_num
  · exact ⟨h2, le_of_not_lt h⟩

theorem quantizeCoarse_mem (p : ℝ) :
    1 ≤ quantizeCoarse p ∧ quantizeCoarse p ≤ 255 :=
  rint_mem _ (clipMel_mem (melWarp p)).1 (clipMel_mem (melWarp p)).2

theorem melWarp_zero : melWarp 0 = 0 := by
  rw [melWarp]
  norm_num

theorem quantizeCoarse_zero : quantizeCoarse 0 = 1 := by
  rw [quantizeCoarse, melWarp_zero, clipMel, clipStep1, if_neg (lt_irrefl 0),
    clipStep2, if_pos (by norm_num : (0 : ℝ) ≤ 1), clipStep3,
    if_neg (by norm_num : ¬(255 : ℝ) < 1)]
  exact rint_one

/-- C2. Pitch-coarse range invariant: for a pitch buffer with all values
`≥ 0`, the log-mel quantization used by `RMVPEOnnxPitchExtractor.extract`
and by `to_waveform` yields integer codes all in `[1, 255]`; an all-zero
(fully unvoiced) buffer yields an all-ones coarse array. -/
theorem f0ToCoarse_range (pf : List ℝ) (_hpos : ∀ p ∈ pf, 0 ≤ p) :
    (∀ c ∈ f0ToCoarse pf, 1 ≤ c ∧ c ≤ 255) ∧
    ((∀ p ∈ pf, p = 0) → ∀ c ∈ f0ToCoarse pf, c = 1) := by
  constructor
  · intro c hc
    rw [f0ToCoarse, List.mem_map] at hc
    obtain ⟨p, _, rfl⟩ := hc
    exact quantizeCoarse_mem p
  · intro hz c hc
    rw [f0ToCoarse, List.mem_map] at hc
    obtain ⟨p, hp, rfl⟩ := hc
    rw [hz p hp]
    exact quantizeCoarse_zero

/-- Witness for C2 at the all-zero buffer `[0, 0]`. -/
theorem f0ToCoarse_range_witness :
    (∀ c ∈ f0ToCoarse [0, 0], 1 ≤ c ∧ c ≤ 255) ∧
    ((∀ p ∈ ([0, 0] : List ℝ), p = 0) →
      ∀ c ∈ f0ToCoarse [0, 0], c = 1) :=
  f0ToCoarse_range [0, 0] (by norm_num)

/-! ## RMVPEOnnxPitchExtractor.extract

The pitch-tracking engine (`self.model.run` with the fixed
voiced/unvoiced threshold, followed by `output[0].squeeze()`) is an opaque
fallible parameter returning the 1-D F0 array.  `audio` and `pitchf` carry
an explicit `ndim` because the source checks it at run time; the tensor→numpy
conversions are identities of the idealized values. -/

/-- A numpy array whose dimensionality is checked at run time; `data` holds
the 1-D contents when `ndim = 1`. -/
structure NpArray where
  ndim : Nat
  data : List ℝ

/-- The lead-in trim of `extract`: `minimumFrames = 0.01 * sr;
targetFrameLength = int(minimumFrames); audio = audio[targetFrameLength:]`.
With exact arithmetic `int(0.01 * sr)` is `sr / 100` rounded toward zero. -/
def trimAudio (sr : Nat) (a : List ℝ) : List ℝ :=
  a.drop (sr / 100)

/-- The semitone shift `f0 *= pow(2, f0_up_key / 12)`, elementwise. -/
noncomputable def scaleF0 (f0UpKey : ℤ) (f0 : List ℝ) : List ℝ :=
  f0.map (fun x => x * (2 : ℝ) ^ ((f0UpKey : ℝ) / 12))

/-- The right-aligned tail write `pitchf[-f0.shape[0]:] = f0[:pitchf.shape[0]]`
with numpy semantics: when `len(f0) = 0` the slice `pitchf[-0:]` is the WHOLE
buffer, so assigning the empty source fails to broadcast unless the buffer is
empty too; when `len(f0) > 0` the last `min (len f0) (len buf)` positions
receive `f0` (truncated to the buffer length) and the front keeps its prior
values. -/
def sliceAssignTail {α : Type} (buf f0 : List α) : Except PipeError (List α) :=
  if f0.length = 0 ∧ buf.length ≠ 0 then .error .broadcastError
  else .ok (buf.take (buf.length - min f0.length buf.length)
    ++ f0.take buf.length)

/-- The body of the `try:` block of `RMVPEOnnxPitchExtractor.extract`:
dimensionality preconditions, fixed lead-in trim, engine call, semitone
shift, right-aligned tail write, log-mel quantization of the whole buffer.
`window` and `silence_front` are parameters of the source that the active
code never reads (the block that used them is commented out). -/
noncomputable def extractBody
    (engine : List ℝ → Except PipeError (List ℝ))
    (audio pitchf : NpArray) (f0UpKey : ℤ) (sr window : Nat)
    (silenceFront : ℝ) : Except PipeError (List ℤ × List ℝ) :=
  if audio.ndim ≠ 1 then .error (.shapeError "audio")
  else if pitchf.ndim ≠ 1 then .error (.shapeError "pitchf")
  else
    match engine (trimAudio sr audio.data) with
    | .error e => .error e
    | .ok f0raw =>
        match sliceAssignTail pitchf.data (scaleF0 f0UpKey f0raw) with
        | .error e => .error e
        | .ok written => .ok (f0ToCoarse written, written)

/-- `RMVPEOnnxPitchExtractor.extract`: the whole body runs inside
`try: ... except Exception as e: raise RuntimeError(f"Exception in
{self.__class__.__name__}", e)` — every failure is re-raised wrapped with
the class name and the original cause. -/
noncomputable def RMVPEOnnxPitchExtractor.extract
    (engine : List ℝ → Except PipeError (List ℝ))
    (audio pitchf : NpArray) (f0UpKey : ℤ) (sr window : Nat)
    (silenceFront : ℝ) : Except PipeError (List ℤ × List ℝ) :=
  match extractBody engine audio pitchf f0UpKey sr window silenceFront with
  | .ok r => .ok r
  | .error e => .error (.wrapped "RMVPEOnnxPitchExtractor" e)

/-- C9. Extraction error wrapping: `extract` either succeeds exactly when
its body does (same value, no partial result), or re-raises the body's
error as a single wrapper carrying the extractor's class name and the
original error as cause — no failure is silently swallowed. -/
theorem extract_wraps_errors
    (engine : List ℝ → Except PipeError (List ℝ))
    (audio pitchf : NpArray) (f0UpKey : ℤ) (sr window : Nat)
    (silenceFront : ℝ) :
    (∃ r, extractBody engine audio pitchf f0UpKey sr window silenceFront
        = .ok r ∧
      RMVPEOnnxPitchExtractor.extract engine audio pitchf f0UpKey sr window
        silenceFront = .ok r) ∨
    (∃ e, extractBody engine audio pitchf f0UpKey sr window silenceFront
        = .error e ∧
      RMVPEOnnxPitchExtractor.extract engine audio pitchf f0UpKey sr window
        silenceFront = .error (.wrapped "RMVPEOnnxPitchExtractor" e)) := by
  cases h : extractBody engine audio pitchf f0UpKey sr window silenceFront with
  | ok r =>
      exact .inl ⟨r, rfl, by rw [RMVPEOnnxPitchExtractor.extract, h]⟩
  | error e =>
      exact .inr ⟨e, rfl, by rw [RMVPEOnnxPitchExtractor.extract, h]⟩

/-- C7 counterexample: with an extracted F0 of length 0 (which satisfies
`len(f0) ≤ len(buffer)`) and a non-empty buffer, `extract` does not return
the buffer with its front untouched: numpy's `pitchf[-0:]` selects the WHOLE
buffer, the empty source fails to broadcast, and `extract` raises (wrapped).
-/
theorem extract_tail_write_cex :
    RMVPEOnnxPitchExtractor.extract (fun _ => .ok []) ⟨1, []⟩ ⟨1, [0]⟩
        0 0 160 0
      = .error (.wrapped "RMVPEOnnxPitchExtractor" .broadcastError) ∧
    ([] : List ℝ).length ≤ ([(0 : ℝ)] : List ℝ).length := by
  constructor
  · rw [RMVPEOnnxPitchExtractor.extract, extractBody]
    norm_num [trimAudio, scaleF0, sliceAssignTail]
  · norm_num

/-- C7 amended: for every pitch buffer of length `L` and extracted F0 of
length `n` with `1 ≤ n ≤ L`, `extract` writes the (semitone-shifted) F0
into the tail positions `L-n .. L-1` and every buffer position before index
`L-n` keeps its prior value. -/
theorem extract_tail_write
    (engine : List ℝ → Except PipeError (List ℝ)) (audio pitchf : NpArray)
    (f0UpKey : ℤ) (sr window : Nat) (silenceFront : ℝ) (f0 : List ℝ)
    (ha : audio.ndim = 1) (hp : pitchf.ndim = 1)
    (heng : engine (trimAudio sr audio.data) = .ok f0)
    (h1 : 1 ≤ f0.length) (h2 : f0.length ≤ pitchf.data.length) :
    RMVPEOnnxPitchExtractor.extract engine audio pitchf f0UpKey sr window
        silenceFront
      = .ok (f0ToCoarse (pitchf.data.take (pitchf.data.length - f0.length)
               ++ scaleF0 f0UpKey f0),
             pitchf.data.take (pitchf.data.length - f0.length)
               ++ scaleF0 f0UpKey f0) ∧
    ∀ i < pitchf.data.length - f0.length,
      (pitchf.data.take (pitchf.data.length - f0.length)
        ++ scaleF0 f0UpKey f0)[i]? = pitchf.data[i]? := by
  have hlen : (scaleF0 f0UpKey f0).length = f0.length := by
    rw [scaleF0, List.length_map]
  have hh : (scaleF0 f0UpKey f0).length ≤ pitchf.data.length := by
    rw [hlen]; exact h2
  have hne : ¬((scaleF0 f0UpKey f0).length = 0 ∧ pitchf.data.length ≠ 0) := by
    rw [hlen]; omega
  have hslice : sliceAssignTail pitchf.data (scaleF0 f0UpKey f0)
      = .ok (pitchf.data.take (pitchf.data.length - f0.length)
          ++ scaleF0 f0UpKey f0) := by
    rw [sliceAssignTail, if_neg hne, List.take_of_length_le hh, hlen,
      Nat.min_eq_left h2]
  constructor
  · simp [RMVPEOnnxPitchExtractor.extract, extractBody, ha, hp, heng, hslice]
  · intro i hi
    rw [List.getElem?_append_left
        (by rw [List.length_take]; omega),
      List.getElem?_take_of_lt hi]

/-- Witness for the amended C7: buffer `[0, 0]`, engine F0 `[440]`. -/
theorem extract_tail_write_witness :
    RMVPEOnnxPitchExtractor.extract (fun _ => .ok [440])
        ⟨1, [0, 0, 0]⟩ ⟨1, [0, 0]⟩ 0 100 160 0
      = .ok (f0ToCoarse (([(0 : ℝ), 0]).take (([(0 : ℝ), 0]).length - 1)
               ++ scaleF0 0 [440]),
             ([(0 : ℝ), 0]).take (([(0 : ℝ), 0]).length - 1)
               ++ scaleF0 0 [440]) ∧
    ∀ i < ([(0 : ℝ), 0]).length - 1,
      (([(0 : ℝ), 0]).take (([(0 : ℝ), 0]).length - 1)
        ++ scaleF0 0 [440])[i]? = ([(0 : ℝ), 0])[i]? := by
  have h := extract_tail_write (fun _ => .ok [440])
    ⟨1, [0, 0, 0]⟩ ⟨1, [0, 0]⟩ 0 100 160 0 [440]
    rfl rfl rfl (by norm_num) (by norm_num)
  exact h

/-- C8. Fixed lead-in trim: `extract` discards exactly
`int(0.01 * sample_rate)` leading audio samples before invoking the pitch
engine (the engine's value is only consulted at the trimmed audio), and the
result does not depend on the `silence_front` argument at all. -/
theorem extract_trim_fixed
    (engine engine2 : List ℝ → Except PipeError (List ℝ))
    (audio pitchf : NpArray) (f0UpKey : ℤ) (sr window : Nat)
    (sf sf' : ℝ)
    (hagree : engine (trimAudio sr audio.data)
      = engine2 (trimAudio sr audio.data)) :
    RMVPEOnnxPitchExtractor.extract engine audio pitchf f0UpKey sr window sf
      = RMVPEOnnxPitchExtractor.extract engine audio pitchf f0UpKey sr
          window sf' ∧
    RMVPEOnnxPitchExtractor.extract engine audio pitchf f0UpKey sr window sf
      = RMVPEOnnxPitchExtractor.extract engine2 audio pitchf f0UpKey sr
          window sf ∧
    trimAudio sr audio.data = audio.data.drop (sr / 100) := by
  refine ⟨rfl, ?_, rfl⟩
  rw [RMVPEOnnxPitchExtractor.extract, extractBody, hagree,
    RMVPEOnnxPitchExtractor.extract, extractBody]

/-- Witness for C8: two engines that agree on the trimmed audio, two
distinct silence-front values. -/
theorem extract_trim_fixed_witness :
    RMVPEOnnxPitchExtractor.extract (fun l => .ok l) ⟨1, [1, 2, 3]⟩
        ⟨1, [0, 0]⟩ 0 100 160 0
      = RMVPEOnnxPitchExtractor.extract (fun l => .ok l) ⟨1, [1, 2, 3]⟩
          ⟨1, [0, 0]⟩ 0 100 160 5 ∧
    RMVPEOnnxPitchExtractor.extract (fun l => .ok l) ⟨1, [1, 2, 3]⟩
        ⟨1, [0, 0]⟩ 0 100 160 0
      = RMVPEOnnxPitchExtractor.extract (fun l => .ok (l ++ []))
          ⟨1, [1, 2, 3]⟩ ⟨1, [0, 0]⟩ 0 100 160 0 ∧
    trimAudio 100 [1, 2, 3] = ([(1 : ℝ), 2, 3]).drop (100 / 100) :=
  extract_trim_fixed (fun l => .ok l) (fun l => .ok (l ++ []))
    ⟨1, [1, 2, 3]⟩ ⟨1, [0, 0]⟩ 0 100 160 0 5 (by simp)

/-! ## to_waveform

The active path of `to_waveform` (cli): align the mel, synthesize a constant
220 Hz pitch track of the aligned frame count, shift it by
`2 ** (f0_up_key / 12)` with the hardcoded `f0_up_key = 0`, quantize it with
the same log-mel chain as the extractor, and call `NSFHead.inference`.  The
`reshape(1, len(...))` calls are identities on the 1-D model, and the final
`squeeze()` is the identity on the 1-D result.  No pitch extractor is
invoked anywhere on this path (the alternative pitch sources in the source
are commented out). -/

/-- `pitchf = np.full(hubert_length, 220); pitchf = pitchf * 2 ** (f0_up_key
/ 12)` with `f0_up_key = 0`. -/
noncomputable def toWaveformPitchf (mel : Tensor3 ℝ) : List ℝ :=
  (List.replicate (alignStep mel).n1 (220 : ℝ)).map
    (fun x => x * (2 : ℝ) ^ ((0 : ℝ) / 12))

/-- `pitch = np.rint(f0_mel).astype(np.int64)` after the clip chain — the
same quantization as in the datamodule, applied to the constant track. -/
noncomputable def toWaveformPitch (mel : Tensor3 ℝ) : List ℤ :=
  f0ToCoarse (toWaveformPitchf mel)

/-- `to_waveform(mel)`: align, build the pitch tracks, call
`NSFHead.inference`. -/
noncomputable def toWaveform (engine : NSFInputs ℝ → List ℝ)
    (noise : Nat → Nat → Nat → ℝ) (mel : Tensor3 ℝ) :
    Except PipeError (List ℤ) :=
  NSFHead.inference engine noise (alignStep mel) (toWaveformPitchf mel)
    (toWaveformPitch mel)

/-- C10. Constant pitch in the active path: `to_waveform` passes the
vocoder a pitch track that is the constant 220.0 Hz at every one of the
`2T` frames — exactly the upsampled hidden-feature frame count — and a
coarse array that is the same constant code at every frame; pitch never
comes from an extractor. -/
theorem toWaveform_constant_pitch (engine : NSFInputs ℝ → List ℝ)
    (noise : Nat → Nat → Nat → ℝ) (mel : Tensor3 ℝ) :
    toWaveformPitchf mel = List.replicate (2 * mel.n2) (220 : ℝ) ∧
    toWaveformPitch mel
      = List.replicate (2 * mel.n2) (quantizeCoarse 220) ∧
    (alignStep mel).n1 = 2 * mel.n2 ∧
    toWaveform engine noise mel
      = NSFHead.inference engine noise (alignStep mel)
          (List.replicate (2 * mel.n2) (220 : ℝ))
          (List.replicate (2 * mel.n2) (quantizeCoarse 220)) := by
  have hn1 : (alignStep mel).n1 = 2 * mel.n2 := Nat.mul_comm mel.n2 2
  have hval : (220 : ℝ) * (2 : ℝ) ^ ((0 : ℝ) / 12) = 220 := by
    rw [zero_div, Real.rpow_zero, mul_one]
  have hf : toWaveformPitchf mel = List.replicate (2 * mel.n2) (220 : ℝ) := by
    rw [toWaveformPitchf, List.map_replicate, hval, hn1]
  have hc : toWaveformPitch mel
      = List.replicate (2 * mel.n2) (quantizeCoarse 220) := by
    rw [toWaveformPitch, hf, f0ToCoarse, List.map_replicate]
  exact ⟨hf, hc, hn1, by rw [toWaveform, hf, hc]⟩

/-- C6 counterexample: a mel with a zero-length time axis (`T = 0`) is NOT
rejected: `to_waveform` proceeds to the vocoder with zero frames and
returns the engine-derived output, raising no error. -/
theorem toWaveform_empty_cex :
    toWaveform (fun _ => ([] : List ℝ)) (fun _ _ _ => (0 : ℝ))
        ⟨1, 2, 0, fun _ _ _ => (0 : ℝ)⟩
      = .ok [] ∧
    (⟨1, 2, 0, fun _ _ _ => (0 : ℝ)⟩ : Tensor3 ℝ).n2 = 0 :=
  ⟨rfl, rfl⟩

/-- C6 amended: `to_waveform` performs no empty-input check; on a mel with
`T = 0` it still invokes the vocoder on the assembled zero-frame inputs and
never fails with any error. -/
theorem toWaveform_empty_no_check (engine : NSFInputs ℝ → List ℝ)
    (noise : Nat → Nat → Nat → ℝ) (mel : Tensor3 ℝ)
    (_hT : mel.n2 = 0) :
    toWaveform engine noise mel
      = .ok (NSFHead.forward engine
          ⟨alignStep mel, (alignStep mel).n1, toWaveformPitch mel,
            toWaveformPitchf mel, [0],
            ⟨1, 192, (alignStep mel).n1, noise⟩⟩) ∧
    ∀ e, toWaveform engine noise mel ≠ .error e :=
  ⟨rfl, fun _ h => Except.noConfusion h⟩

/-- Witness for the amended C6 at a concrete `T = 0` mel. -/
theorem toWaveform_empty_no_check_witness :
    toWaveform (fun _ => ([] : List ℝ)) (fun _ _ _ => (0 : ℝ))
        ⟨1, 3, 0, fun _ _ _ => (0 : ℝ)⟩
      = .ok (NSFHead.forward (fun _ => ([] : List ℝ))
          ⟨alignStep ⟨1, 3, 0, fun _ _ _ => (0 : ℝ)⟩,
            (alignStep ⟨1, 3, 0, fun _ _ _ => (0 : ℝ)⟩).n1,
            toWaveformPitch ⟨1, 3, 0, fun _ _ _ => (0 : ℝ)⟩,
            toWaveformPitchf ⟨1, 3, 0, fun _ _ _ => (0 : ℝ)⟩, [0],
            ⟨1, 192, (alignStep ⟨1, 3, 0, fun _ _ _ => (0 : ℝ)⟩).n1,
              fun _ _ _ => (0 : ℝ)⟩⟩) ∧
    ∀ e, toWaveform (fun _ => ([] : List ℝ)) (fun _ _ _ => (0 : ℝ))
        ⟨1, 3, 0, fun _ _ _ => (0 : ℝ)⟩
      ≠ .error e :=
  toWaveform_empty_no_check (fun _ => ([] : List ℝ)) (fun _ _ _ => (0 : ℝ))
    ⟨1, 3, 0, fun _ _ _ => (0 : ℝ)⟩ rfl
